import Mathlib

/-!
Verification of parse-archived-github-resources: the classifier and the script writer of
`main.go`.

A shallow embedding of `processTerraformFile` and `generateArchivedReposRemoval`.

* Go strings are Lean strings; `fmt.Sprintf` with `%s` verbs is string concatenation.
* The HCL and cty libraries are not part of the repository.  Their values are embedded as far
  as `main.go` observes them: an expression is what its `Value` method returns, a cty value
  carries its type, and the conversions `True` and `AsString` abort the program on a value
  of another type, as the library does.
* A Go run-time abort (an index out of range, a failed conversion) is an explicit outcome.
* The file system is an event trace; whether a system call fails is decided by the environment.
  The progress messages printed on standard output are left out.
-/

set_option autoImplicit false

namespace ParseArchived

/-! ## Strings -/

/-- Constant `targetTFModuleName` of `main.go`. -/
def targetTFModuleName : String := "terraform-module-github-repository"

/-- Go `strings.Contains`. -/
def stringsContains (s substr : String) : Bool :=
  decide (substr.data <:+: s.data)

/-- Go `strings.HasSuffix`. -/
def stringsHasSuffix (s suffix : String) : Bool :=
  decide (suffix.data <:+ s.data)

/-- Go `strings.TrimSuffix`: `s` without the trailing `suffix`, or `s` itself. -/
def stringsTrimSuffix (s suffix : String) : String :=
  if stringsHasSuffix s suffix then
    String.mk (s.data.take (s.data.length - suffix.data.length))
  else s

/-! ## cty values and HCL diagnostics -/

/-- Ways in which the Go program aborts instead of returning. -/
inductive Panic where
  | indexOutOfRange
  | notBool
  | notString
deriving DecidableEq, Repr

/-- A `cty.Value` as the program can observe it: its type and, when known, its content.
`nullVal` is the value of the literal `null`, `dynamicVal` is `cty.DynamicVal`, the placeholder
returned next to error diagnostics; the type of both is the dynamic pseudo-type.  Nulls and
unknowns of a primitive type, which no literal evaluates to, are left out. -/
inductive Value where
  | boolVal (b : Bool)
  | stringVal (s : String)
  | numberVal (n : Int)
  | nullVal
  | dynamicVal
deriving DecidableEq, Repr

/-- Method `cty.Value.True`: the content of a value of type Bool; aborts on any other type. -/
def Value.True : Value → Except Panic Bool
  | .boolVal b => .ok b
  | _ => .error .notBool

/-- Method `cty.Value.AsString`: the content of a value of type String; aborts on any other
type. -/
def Value.AsString : Value → Except Panic String
  | .stringVal s => .ok s
  | _ => .error .notString

/-- Type `hcl.DiagnosticSeverity`. -/
inductive DiagnosticSeverity where
  | DiagError
  | DiagWarning
deriving DecidableEq, Repr

/-- Type `hcl.Diagnostic`, reduced to its severity and summary. -/
structure Diagnostic where
  Severity : DiagnosticSeverity
  Summary : String
deriving DecidableEq, Repr

/-- Type `hcl.Diagnostics`; the nil slice is the empty list. -/
abbrev Diagnostics := List Diagnostic

/-- Method `hcl.Diagnostics.HasErrors`: some diagnostic has severity error.  On the nil slice
it is false, so the test `diags != nil && diags.HasErrors()` of `main.go` is this function. -/
def Diagnostics.HasErrors (diags : Diagnostics) : Bool :=
  diags.any (fun d => decide (d.Severity = DiagnosticSeverity.DiagError))

/-- Type `hcl.EvalContext`, reduced to its variables.  `main.go` only ever builds the empty
one, `&hcl.EvalContext{}`. -/
structure EvalContext where
  Variables : List (String × Value)

/-- The context `&hcl.EvalContext{}`. -/
def EvalContext.empty : EvalContext := ⟨[]⟩

/-- Interface `hclsyntax.Expression`, reduced to the one method `main.go` calls. -/
structure Expression where
  Value : EvalContext → ParseArchived.Value × Diagnostics

/-- Expression `hclsyntax.LiteralValueExpr`, which also stands for a quoted string without
interpolation: it evaluates to its value, without diagnostics, in every context. -/
def LiteralValueExpr (val : Value) : Expression :=
  ⟨fun _ => (val, [])⟩

/-- Expression `hclsyntax.ScopeTraversalExpr` on a root name: the value of the variable, or the
placeholder value and an error diagnostic when the context does not define it. -/
def ScopeTraversalExpr (rootName : String) : Expression :=
  ⟨fun ctx =>
    match ctx.Variables.lookup rootName with
    | some v => (v, [])
    | none =>
      (Value.dynamicVal,
        [⟨DiagnosticSeverity.DiagError,
          if ctx.Variables.isEmpty then "Variables not allowed" else "Unknown variable"⟩])⟩

/-! ## The HCL syntax tree -/

/-- Type `hclsyntax.Attribute`. -/
structure Attribute where
  Name : String
  Expr : Expression

mutual
/-- Type `hclsyntax.Body`: the attribute map, as an association list read by key, and the
nested blocks in source order. -/
inductive Body where
  | mk (Attributes : List (String × Attribute)) (Blocks : List Block)
/-- Type `hclsyntax.Block`. -/
inductive Block where
  | mk (Type_ : String) (Labels : List String) (Body : Body)
end

/-- Field `Attributes` of a body. -/
def Body.Attributes : Body → List (String × Attribute)
  | .mk attrs _ => attrs

/-- Field `Blocks` of a body. -/
def Body.Blocks : Body → List Block
  | .mk _ blocks => blocks

/-- Field `Type` of a block (`Type` is reserved in Lean). -/
def Block.Type_ : Block → String
  | .mk t _ _ => t

/-- Field `Labels` of a block. -/
def Block.Labels : Block → List String
  | .mk _ labels _ => labels

/-- Field `Body` of a block. -/
def Block.Body : Block → ParseArchived.Body
  | .mk _ _ body => body

/-- Interface `hcl.Body`: the native syntax body, or some other implementation. -/
inductive HclBody where
  | nativeBody (body : Body)
  | otherBody

/-- Type `hcl.File`. -/
structure File where
  Body : HclBody

/-! ## processTerraformFile -/

/-- The errors `processTerraformFile` returns, by the `fmt.Errorf` call that builds them. -/
inductive ProcessError where
  | parseFailed (configFile : String) (diags : Diagnostics)
  | castFailed (configFile : String)
  | resourceArchivedFailed (configFile : String) (diags : Diagnostics)
  | moduleSourceFailed (configFile : String) (diags : Diagnostics)
  | moduleArchivedFailed (configFile : String) (diags : Diagnostics)
deriving DecidableEq, Repr

/-- What a call of `processTerraformFile` does: returns `results` with a nil error, returns
`results` with an error, or aborts. -/
inductive Outcome where
  | ok (results : List String)
  | error (results : List String) (err : ProcessError)
  | panic (p : Panic)
deriving DecidableEq, Repr

/-- How one statement of the loop body ends. -/
inductive Flow where
  | fallthrough (results : List String)
  | continue_ (results : List String)
  | return_ (results : List String) (err : ProcessError)
  | panic (p : Panic)
deriving DecidableEq, Repr

/-- The first `if` statement of the loop body (lines 153-172): standalone `github_repository`
resources. -/
def resourceStatement (configFile : String) (block : Block) (results : List String) : Flow :=
  if block.Type_ = "resource" then
    match block.Labels[0]? with
    | none => .panic .indexOutOfRange
    | some label0 =>
      if label0 = "github_repository" then
        match block.Labels[1]? with
        | none => .panic .indexOutOfRange
        | some resourceName =>
          match block.Body.Attributes.lookup "archived" with
          | none => .continue_ results
          | some attr =>
            let r := attr.Expr.Value EvalContext.empty
            if r.2.HasErrors then
              .return_ results (.resourceArchivedFailed configFile r.2)
            else
              match r.1.True with
              | .error p => .panic p
              | .ok archived =>
                if archived then .fallthrough (results ++ [label0 ++ "." ++ resourceName])
                else .fallthrough results
      else .fallthrough results
  else .fallthrough results

/-- The second `if` statement of the loop body (lines 175-214): modules. -/
def moduleStatement (configFile : String) (block : Block) (results : List String) : Flow :=
  if block.Type_ = "module" then
    match block.Labels[0]? with
    | none => .panic .indexOutOfRange
    | some resourceName =>
      match block.Body.Attributes.lookup "source" with
      | none => .continue_ results
      | some attr =>
        let r := attr.Expr.Value EvalContext.empty
        if r.2.HasErrors then
          .return_ results (.moduleSourceFailed configFile r.2)
        else
          match r.1.AsString with
          | .error p => .panic p
          | .ok moduleSource =>
            let correctModule := stringsContains moduleSource targetTFModuleName
            match block.Body.Attributes.lookup "archived" with
            | none => .continue_ results
            | some attr2 =>
              if correctModule then
                let r2 := attr2.Expr.Value EvalContext.empty
                if r2.2.HasErrors then
                  .return_ results (.moduleArchivedFailed configFile r2.2)
                else
                  match r2.1.True with
                  | .error p => .panic p
                  | .ok archived =>
                    if archived then .fallthrough (results ++ ["module." ++ resourceName])
                    else .fallthrough results
              else .fallthrough results
  else .fallthrough results

/-- One iteration of the loop over `body.Blocks`: the two `if` statements in sequence. -/
def loopBody (configFile : String) (block : Block) (results : List String) : Flow :=
  match resourceStatement configFile block results with
  | .fallthrough results1 => moduleStatement configFile block results1
  | flow => flow

/-- The loop `for _, block := range body.Blocks` followed by `return results, nil`. -/
def processBlocks (configFile : String) : List Block → List String → Outcome
  | [], results => .ok results
  | block :: rest, results =>
    match loopBody configFile block results with
    | .fallthrough results1 => processBlocks configFile rest results1
    | .continue_ results1 => processBlocks configFile rest results1
    | .return_ results1 err => .error results1 err
    | .panic p => .panic p

/-- Function `processTerraformFile`; `ParseHCLFile` is the method of the HCL parser, which reads
and parses the named file. -/
def processTerraformFile (ParseHCLFile : String → Option File × Diagnostics)
    (configFile : String) : Outcome :=
  let results : List String := []
  let parsed := ParseHCLFile configFile
  match parsed.1 with
  | none => .error results (.parseFailed configFile parsed.2)
  | some file =>
    if parsed.2.HasErrors then .error results (.parseFailed configFile parsed.2)
    else
      match file.Body with
      | .otherBody => .error results (.castFailed configFile)
      | .nativeBody body => processBlocks configFile body.Blocks results

/-! ## generateArchivedReposRemoval -/

/-- Type `terraformFile` of `main.go`. -/
structure terraformFile where
  fileName : String
  directoryName : String
deriving DecidableEq, Repr

/-- The system calls `generateArchivedReposRemoval` makes on the output directory, when they
succeed: `os.Create`, `(*os.File).WriteString` and `(*os.File).Close`. -/
inductive FsEvent where
  | create (path : String)
  | write (path : String) (data : String)
  | close (path : String)
deriving DecidableEq, Repr

/-- What `main.go` takes from outside: the HCL parser on the files of the root directory,
`filepath.Join`, and, for each system call, whether it fails after the events so far.  The
input files are taken not to change during the run, so the parser is a function of the path. -/
structure Env where
  ParseHCLFile : String → Option File × Diagnostics
  Join : List String → String
  createFails : List FsEvent → String → Bool
  writeFails : List FsEvent → String → String → Bool
  closeFails : List FsEvent → String → Bool

/-- The errors `generateArchivedReposRemoval` returns, by the `fmt.Errorf` call that builds
them. -/
inductive GenerateError where
  | processing (targetFile : String) (err : ProcessError)
  | creating (outputFilePath : String)
  | writing (outputFilePath : String)
  | closing (outputFilePath : String)
deriving DecidableEq, Repr

/-- How `generateArchivedReposRemoval` ends: it returns nil, returns an error, or aborts. -/
inductive Status where
  | nil
  | err (e : GenerateError)
  | panic (p : Panic)
deriving DecidableEq, Repr

/-- A run: the events on the output directory, oldest first, and how the run ended. -/
structure Run where
  events : List FsEvent
  status : Status
deriving DecidableEq, Repr

/-- The inner loop `for _, archivedResource := range archivedResources` (lines 67-72). -/
def writeCommands (env : Env) (outputFilePath : String) : List String → List FsEvent → Run
  | [], trace => ⟨trace, .nil⟩
  | archivedResource :: rest, trace =>
    let data := "terragrunt state rm " ++ archivedResource ++ "\n"
    if env.writeFails trace outputFilePath data then ⟨trace, .err (.writing outputFilePath)⟩
    else writeCommands env outputFilePath rest (trace ++ [.write outputFilePath data])

/-- One iteration of the loop `for _, tfFile := range tfFiles` (lines 44-76), from the events
`trace` of the earlier iterations.  Status nil stands for the end of the iteration, by
`continue` or at the end of the body; any other status ends the function. -/
def generateBody (env : Env) (rootDir outputDir : String) (tfFile : terraformFile)
    (trace : List FsEvent) : Run :=
  let targetFile := env.Join [rootDir, tfFile.directoryName, tfFile.fileName]
  match processTerraformFile env.ParseHCLFile targetFile with
  | .panic p => ⟨trace, .panic p⟩
  | .error _ err => ⟨trace, .err (.processing targetFile err)⟩
  | .ok archivedResources =>
    if archivedResources.length = 0 then ⟨trace, .nil⟩
    else
      let outputFileName :=
        tfFile.directoryName ++ "-" ++ stringsTrimSuffix tfFile.fileName ".tf" ++ ".sh"
      let outputFilePath := env.Join [outputDir, outputFileName]
      if env.createFails trace outputFilePath then ⟨trace, .err (.creating outputFilePath)⟩
      else
        let written :=
          writeCommands env outputFilePath archivedResources (trace ++ [.create outputFilePath])
        match written.status with
        | .nil =>
          if env.closeFails written.events outputFilePath then
            ⟨written.events, .err (.closing outputFilePath)⟩
          else ⟨written.events ++ [.close outputFilePath], .nil⟩
        | _ => written

/-- The loop `for _, tfFile := range tfFiles` followed by `return nil` (lines 43-79). -/
def generateLoop (env : Env) (rootDir outputDir : String) :
    List terraformFile → List FsEvent → Run
  | [], trace => ⟨trace, .nil⟩
  | tfFile :: rest, trace =>
    let run := generateBody env rootDir outputDir tfFile trace
    match run.status with
    | .nil => generateLoop env rootDir outputDir rest run.events
    | _ => run

/-- Function `generateArchivedReposRemoval`. -/
def generateArchivedReposRemoval (env : Env) (rootDir outputDir : String)
    (tfFiles : List terraformFile) : Run :=
  generateLoop env rootDir outputDir tfFiles []

/-- The content of the file `path` after the events: `os.Create` empties or creates it and
each write appends to it. -/
def fileContent (path : String) (events : List FsEvent) : Option String :=
  events.foldl
    (fun content event =>
      match event with
      | .create p => if p = path then some "" else content
      | .write p data => if p = path then content.map (fun c => c ++ data) else content
      | .close _ => content)
    none

/-! ## The specification, in its own words -/

/-- Spec, section 4.1: the value the named attribute evaluates to, when it is present and its
evaluation succeeds. -/
def attributeValue (block : Block) (name : String) : Option Value :=
  match block.Body.Attributes.lookup name with
  | none => none
  | some attr =>
    if (attr.Expr.Value EvalContext.empty).2.HasErrors then none
    else some (attr.Expr.Value EvalContext.empty).1

/-- Spec, section 4.2: the named attribute is present and its evaluation fails. -/
def evaluationFails (block : Block) (name : String) : Bool :=
  match block.Body.Attributes.lookup name with
  | none => false
  | some attr => (attr.Expr.Value EvalContext.empty).2.HasErrors

/-- Spec, section 3, invariant (a)-(c) for a standalone resource: kind `resource`, first label
the repository resource type, and `archived` evaluating to boolean true. -/
def qualifiesAsResource (block : Block) : Bool :=
  decide (block.Type_ = "resource") && decide (block.Labels[0]? = some "github_repository") &&
    decide (attributeValue block "archived" = some (.boolVal true))

/-- Spec, section 3, invariant (a)-(c) for a module: kind `module`, `source` evaluating to a
string that contains the target-module marker, and `archived` evaluating to boolean true. -/
def qualifiesAsModule (block : Block) : Bool :=
  decide (block.Type_ = "module") &&
    (match attributeValue block "source" with
      | some (.stringVal s) => stringsContains s targetTFModuleName
      | _ => false) &&
    decide (attributeValue block "archived" = some (.boolVal true))

/-- Spec, section 4.1: a block qualifies when it does so as a resource or as a module. -/
def qualifies (block : Block) : Bool :=
  qualifiesAsResource block || qualifiesAsModule block

/-- Spec, section 3: the identifier of a block, `<resource_type>.<resource_name>` for a resource
and `module.<module_name>` for a module. -/
def identifier (block : Block) : String :=
  if block.Type_ = "module" then "module." ++ block.Labels.headD ""
  else block.Labels.headD "" ++ "." ++ (block.Labels.drop 1).headD ""

/-- Spec, section 4.1: an expression-evaluation failure, as opposed to a parse failure. -/
def ProcessError.isEvaluationError : ProcessError → Bool
  | .resourceArchivedFailed _ _ => true
  | .moduleSourceFailed _ _ => true
  | .moduleArchivedFailed _ _ => true
  | _ => false

/-- Spec, section 6: one line of a script. -/
def commandLine (identifier : String) : String :=
  "terragrunt state rm " ++ identifier ++ "\n"

/-- Spec, section 6: the lines of the identifiers, concatenated in their order. -/
def scriptContent : List String → String
  | [] => ""
  | identifier :: rest => commandLine identifier ++ scriptContent rest

/-- Spec, section 6: the script of an input file is named `<directory>-<file-stem>.sh` and lies
in the output directory. -/
def scriptPath (env : Env) (outputDir : String) (tfFile : terraformFile) : String :=
  env.Join [outputDir, tfFile.directoryName ++ "-" ++ stringsTrimSuffix tfFile.fileName ".tf" ++ ".sh"]

/-- Spec, section 6: no script for an empty identifier sequence; otherwise one script, created,
written one line per identifier in order, and closed. -/
def expectedScript (path : String) (ids : List String) : List FsEvent :=
  if ids = [] then []
  else [FsEvent.create path] ++ ids.map (fun i => FsEvent.write path (commandLine i)) ++
    [FsEvent.close path]

/-- Spec, section 6: the scripts of a list of input files, in the order of the files; a file
whose processing does not yield an identifier sequence has none. -/
def expectedScripts (env : Env) (rootDir outputDir : String) (tfFiles : List terraformFile) :
    List FsEvent :=
  tfFiles.flatMap (fun tfFile =>
    match processTerraformFile env.ParseHCLFile
        (env.Join [rootDir, tfFile.directoryName, tfFile.fileName]) with
    | .ok ids => expectedScript (scriptPath env outputDir tfFile) ids
    | _ => [])

/-! ## Auxiliary definitions for the proofs -/

/-- The flow of a statement started with `acc` in front of the accumulated results. -/
def Flow.prepend (acc : List String) : Flow → Flow
  | .fallthrough r => .fallthrough (acc ++ r)
  | .continue_ r => .continue_ (acc ++ r)
  | .return_ r e => .return_ (acc ++ r) e
  | .panic p => .panic p

/-- The outcome of the loop started with `acc` in front of the accumulated results. -/
def Outcome.prepend (acc : List String) : Outcome → Outcome
  | .ok r => .ok (acc ++ r)
  | .error r e => .error (acc ++ r) e
  | .panic p => .panic p

/-- The loop continued on `rest` after an iteration that ended with `flow`. -/
def continueWith (configFile : String) (rest : List Block) : Flow → Outcome
  | .fallthrough r => processBlocks configFile rest r
  | .continue_ r => processBlocks configFile rest r
  | .return_ r e => .error r e
  | .panic p => .panic p

/-- The file an event is on. -/
def FsEvent.path : FsEvent → String
  | .create p => p
  | .write p _ => p
  | .close p => p

/-! ## Example documents -/

/-- An entry of the attribute map of a body. -/
def attributeEntry (name : String) (e : Expression) : String × Attribute :=
  (name, ⟨name, e⟩)

/-- The parser on a directory in which every file holds these top-level blocks. -/
def parserOf (blocks : List Block) : String → Option File × Diagnostics :=
  fun _ => (some ⟨.nativeBody (.mk [] blocks)⟩, [])

/-- Block `resource "github_repository" "foo" { archived = true }`. -/
def resourceFoo : Block :=
  .mk "resource" ["github_repository", "foo"]
    (.mk [attributeEntry "archived" (LiteralValueExpr (.boolVal true))] [])

/-- Block `resource "github_repository" "old" { archived = false }`. -/
def resourceOld : Block :=
  .mk "resource" ["github_repository", "old"]
    (.mk [attributeEntry "archived" (LiteralValueExpr (.boolVal false))] [])

/-- Block `resource "github_repository" "txt" { archived = "yes" }`. -/
def resourceTxt : Block :=
  .mk "resource" ["github_repository", "txt"]
    (.mk [attributeEntry "archived" (LiteralValueExpr (.stringVal "yes"))] [])

/-- Block `resource "github_repository" "ref" { archived = var.gone }`. -/
def resourceRef : Block :=
  .mk "resource" ["github_repository", "ref"]
    (.mk [attributeEntry "archived" (ScopeTraversalExpr "var")] [])

/-- Block `module "bar"` with the target module as source and `archived = true`. -/
def moduleBar : Block :=
  .mk "module" ["bar"]
    (.mk [attributeEntry "source" (LiteralValueExpr
            (.stringVal "git::https://example.com/terraform-module-github-repository//x")),
          attributeEntry "archived" (LiteralValueExpr (.boolVal true))] [])

/-- Block `module "txt"` with the target module as source and `archived = "yes"`. -/
def moduleTxt : Block :=
  .mk "module" ["txt"]
    (.mk [attributeEntry "source" (LiteralValueExpr
            (.stringVal "git::https://example.com/terraform-module-github-repository//x")),
          attributeEntry "archived" (LiteralValueExpr (.stringVal "yes"))] [])

/-- Block `module "baz" { source = "other-module" archived = true }`. -/
def moduleBaz : Block :=
  .mk "module" ["baz"]
    (.mk [attributeEntry "source" (LiteralValueExpr (.stringVal "other-module")),
          attributeEntry "archived" (LiteralValueExpr (.boolVal true))] [])

/-- Block `module "qux" { source = "other-module" archived = var.gone }`. -/
def moduleQux : Block :=
  .mk "module" ["qux"]
    (.mk [attributeEntry "source" (LiteralValueExpr (.stringVal "other-module")),
          attributeEntry "archived" (ScopeTraversalExpr "var")] [])

/-- Block `module "dyn" { source = var.src }`, without an `archived` attribute. -/
def moduleDyn : Block :=
  .mk "module" ["dyn"] (.mk [attributeEntry "source" (ScopeTraversalExpr "var")] [])

/-- Block `locals { }`, of a kind the program does not look at, without labels. -/
def localsBlock : Block :=
  .mk "locals" [] (.mk [] [])

/-- Paths joined with a slash. -/
def joinPath : List String → String
  | [] => ""
  | [part] => part
  | part :: rest => part ++ "/" ++ joinPath rest

/-- An environment with three files, `repos/a/main.tf` (one archived resource and one archived
module), `repos/a/empty.tf` (nothing archived) and `repos/b/bad.tf` (an archived resource, then
an `archived` that does not evaluate); paths are joined with a slash and no system call
fails. -/
def exampleEnv : Env where
  ParseHCLFile := fun path =>
    if path = "repos/a/main.tf" then parserOf [resourceFoo, moduleBar] path
    else if path = "repos/a/empty.tf" then parserOf [resourceOld, moduleBaz] path
    else if path = "repos/b/bad.tf" then parserOf [resourceFoo, resourceRef] path
    else (none, [⟨DiagnosticSeverity.DiagError, "Failed to read file"⟩])
  Join := joinPath
  createFails := fun _ _ => false
  writeFails := fun _ _ _ => false
  closeFails := fun _ _ => false

/-! ## Lemmas on the loop of processTerraformFile -/

theorem resourceStatement_prepend (cf : String) (b : Block) (acc : List String) :
    resourceStatement cf b acc = (resourceStatement cf b []).prepend acc := by
  unfold resourceStatement
  by_cases h1 : b.Type_ = "resource"
  swap
  · simp [h1, Flow.prepend]
  cases h3 : b.Labels[0]? with
  | none => simp [h1, Flow.prepend]
  | some l0 =>
    by_cases h2 : l0 = "github_repository"
    swap
    · simp [h1, h2, Flow.prepend]
    cases h4 : b.Labels[1]? with
    | none => simp [h1, h2, Flow.prepend]
    | some l1 =>
      cases h5 : List.lookup "archived" b.Body.Attributes with
      | none => simp [h1, h2, Flow.prepend]
      | some attr =>
        cases h6 : (attr.Expr.Value EvalContext.empty).2.HasErrors
        · cases h7 : (attr.Expr.Value EvalContext.empty).1.True with
          | error p => simp [h1, h2, h6, h7, Flow.prepend]
          | ok archived => cases archived <;> simp [h1, h2, h6, h7, Flow.prepend]
        · simp [h1, h2, h6, Flow.prepend]

theorem moduleStatement_prepend (cf : String) (b : Block) (acc r : List String) :
    moduleStatement cf b (acc ++ r) = (moduleStatement cf b r).prepend acc := by
  unfold moduleStatement
  by_cases h1 : b.Type_ = "module"
  swap
  · simp [h1, Flow.prepend]
  cases h2 : b.Labels[0]? with
  | none => simp [h1, Flow.prepend]
  | some l0 =>
    cases h3 : List.lookup "source" b.Body.Attributes with
    | none => simp [h1, Flow.prepend]
    | some attr =>
      cases h4 : (attr.Expr.Value EvalContext.empty).2.HasErrors
      swap
      · simp [h1, h4, Flow.prepend]
      cases h5 : (attr.Expr.Value EvalContext.empty).1.AsString with
      | error p => simp [h1, h4, h5, Flow.prepend]
      | ok moduleSource =>
        cases h6 : List.lookup "archived" b.Body.Attributes with
        | none => simp [h1, h4, h5, Flow.prepend]
        | some attr2 =>
          cases h7 : stringsContains moduleSource targetTFModuleName
          · simp [h1, h4, h5, h7, Flow.prepend]
          cases h8 : (attr2.Expr.Value EvalContext.empty).2.HasErrors
          · cases h9 : (attr2.Expr.Value EvalContext.empty).1.True with
            | error p => simp [h1, h4, h5, h7, h8, h9, Flow.prepend]
            | ok archived => cases archived <;> simp [h1, h4, h5, h7, h8, h9, Flow.prepend]
          · simp [h1, h4, h5, h7, h8, Flow.prepend]

theorem loopBody_prepend (cf : String) (b : Block) (acc : List String) :
    loopBody cf b acc = (loopBody cf b []).prepend acc := by
  unfold loopBody
  rw [resourceStatement_prepend cf b acc]
  cases h : resourceStatement cf b [] with
  | fallthrough r => simp [Flow.prepend, moduleStatement_prepend]
  | continue_ r => simp [Flow.prepend]
  | return_ r e => simp [Flow.prepend]
  | panic p => simp [Flow.prepend]

theorem processBlocks_cons (cf : String) (b : Block) (rest : List Block) (acc : List String) :
    processBlocks cf (b :: rest) acc = continueWith cf rest (loopBody cf b acc) := by
  rw [processBlocks]
  cases loopBody cf b acc <;> rfl

theorem processBlocks_prepend (cf : String) (bs : List Block) (acc : List String) :
    processBlocks cf bs acc = (processBlocks cf bs []).prepend acc := by
  induction bs generalizing acc with
  | nil => simp [processBlocks, Outcome.prepend]
  | cons b rest ih =>
    rw [processBlocks_cons, processBlocks_cons, loopBody_prepend cf b acc]
    cases h : loopBody cf b [] with
    | fallthrough r =>
      simp only [Flow.prepend, continueWith]
      rw [ih (acc ++ r), ih r]
      cases processBlocks cf rest [] <;> simp [Outcome.prepend]
    | continue_ r =>
      simp only [Flow.prepend, continueWith]
      rw [ih (acc ++ r), ih r]
      cases processBlocks cf rest [] <;> simp [Outcome.prepend]
    | return_ r e => simp [Flow.prepend, continueWith, Outcome.prepend]
    | panic p => simp [Flow.prepend, continueWith, Outcome.prepend]

theorem processBlocks_append (cf : String) (xs ys : List Block) (acc : List String) :
    processBlocks cf (xs ++ ys) acc =
      match processBlocks cf xs acc with
      | .ok r => processBlocks cf ys r
      | o => o := by
  induction xs generalizing acc with
  | nil => simp [processBlocks]
  | cons b rest ih =>
    rw [List.cons_append, processBlocks_cons, processBlocks_cons]
    cases h : loopBody cf b acc with
    | fallthrough r => simpa [continueWith] using ih r
    | continue_ r => simpa [continueWith] using ih r
    | return_ r e => simp [continueWith]
    | panic p => simp [continueWith]

theorem loopBody_of_resource (cf : String) (b : Block) (acc : List String)
    (h : b.Type_ = "resource") : loopBody cf b acc = resourceStatement cf b acc := by
  have hm : ∀ r, moduleStatement cf b r = .fallthrough r := by
    intro r
    simp [moduleStatement, h]
  unfold loopBody
  cases resourceStatement cf b acc <;> simp [hm]

theorem loopBody_of_not_resource (cf : String) (b : Block) (acc : List String)
    (h : b.Type_ ≠ "resource") : loopBody cf b acc = moduleStatement cf b acc := by
  simp [loopBody, resourceStatement, h]

theorem loopBody_other (cf : String) (b : Block) (acc : List String)
    (h1 : b.Type_ ≠ "resource") (h2 : b.Type_ ≠ "module") :
    loopBody cf b acc = .fallthrough acc := by
  rw [loopBody_of_not_resource cf b acc h1]
  simp [moduleStatement, h2]

theorem processTerraformFile_parsed (P : String → Option File × Diagnostics) (cf : String)
    (body : Body) (diags : Diagnostics)
    (hparse : P cf = (some ⟨.nativeBody body⟩, diags)) (hdiags : diags.HasErrors = false) :
    processTerraformFile P cf = processBlocks cf body.Blocks [] := by
  simp [processTerraformFile, hparse, hdiags]

theorem processBlocks_split (cf : String) (pre post : List Block) (b : Block)
    (r1 : List String) (hpre : processBlocks cf pre [] = .ok r1) :
    processBlocks cf (pre ++ b :: post) [] = continueWith cf post (loopBody cf b r1) := by
  rw [processBlocks_append, hpre]
  simp [processBlocks_cons]

theorem continueWith_next (cf : String) (post : List Block) (r r2 : List String)
    (hpost : processBlocks cf post [] = .ok r2) :
    processBlocks cf post r = .ok (r ++ r2) := by
  rw [processBlocks_prepend, hpost]
  rfl

theorem Value.True_eq_ok (v : Value) (a : Bool) : v.True = .ok a ↔ v = .boolVal a := by
  cases v <;> simp [Value.True]

theorem Value.AsString_eq_ok (v : Value) (s : String) : v.AsString = .ok s ↔ v = .stringVal s := by
  cases v <;> simp [Value.AsString]

theorem resource_next (cf : String) (b : Block) (acc r : List String)
    (hkind : b.Type_ = "resource")
    (h : resourceStatement cf b acc = .fallthrough r ∨ resourceStatement cf b acc = .continue_ r) :
    r = acc ++ (if qualifiesAsResource b then [identifier b] else []) := by
  have hid : identifier b = b.Labels.headD "" ++ "." ++ (b.Labels.drop 1).headD "" := by
    simp [identifier, hkind]
  unfold resourceStatement at h
  unfold qualifiesAsResource attributeValue
  rw [hid]
  cases hl : b.Labels with
  | nil => simp [hkind, hl] at h
  | cons l0 t =>
    by_cases h2 : l0 = "github_repository"
    swap
    · simp [hkind, hl, h2] at h ⊢
      exact h.symm
    cases t with
    | nil => simp [hkind, hl, h2] at h
    | cons l1 t2 =>
      cases h5 : List.lookup "archived" b.Body.Attributes with
      | none =>
        simp [hkind, hl, h2, h5] at h ⊢
        exact h.symm
      | some attr =>
        cases h6 : (attr.Expr.Value EvalContext.empty).2.HasErrors
        · cases h7 : (attr.Expr.Value EvalContext.empty).1.True with
          | error p => simp [hkind, hl, h2, h5, h6, h7] at h
          | ok archived =>
            have hv := (Value.True_eq_ok _ _).1 h7
            cases archived <;> simp [hkind, hl, h2, h5, h6, hv, Value.True] at h ⊢ <;> exact h.symm
        · simp [hkind, hl, h2, h5, h6] at h

theorem module_next (cf : String) (b : Block) (acc r : List String)
    (hkind : b.Type_ = "module")
    (h : moduleStatement cf b acc = .fallthrough r ∨ moduleStatement cf b acc = .continue_ r) :
    r = acc ++ (if qualifiesAsModule b then [identifier b] else []) := by
  have hid : identifier b = "module." ++ b.Labels.headD "" := by
    simp [identifier, hkind]
  unfold moduleStatement at h
  unfold qualifiesAsModule attributeValue
  rw [hid]
  cases hl : b.Labels with
  | nil => simp [hkind, hl] at h
  | cons l0 t =>
    cases h3 : List.lookup "source" b.Body.Attributes with
    | none =>
      simp [hkind, hl, h3] at h ⊢
      exact h.symm
    | some attr =>
      cases h4 : (attr.Expr.Value EvalContext.empty).2.HasErrors
      swap
      · simp [hkind, hl, h3, h4] at h
      cases h5 : (attr.Expr.Value EvalContext.empty).1.AsString with
      | error p => simp [hkind, hl, h3, h4, h5] at h
      | ok moduleSource =>
        have hs := (Value.AsString_eq_ok _ _).1 h5
        cases h6 : List.lookup "archived" b.Body.Attributes with
        | none =>
          simp [hkind, hl, h3, h4, h5, h6] at h ⊢
          exact h.symm
        | some attr2 =>
          cases h7 : stringsContains moduleSource targetTFModuleName
          · simp [hkind, hl, h3, h4, h6, h7, hs, Value.AsString] at h ⊢
            exact h.symm
          cases h8 : (attr2.Expr.Value EvalContext.empty).2.HasErrors
          · cases h9 : (attr2.Expr.Value EvalContext.empty).1.True with
            | error p => simp [hkind, hl, h3, h4, h5, h6, h7, h8, h9] at h
            | ok archived =>
              have hv := (Value.True_eq_ok _ _).1 h9
              cases archived <;> simp [hkind, hl, h3, h4, h6, h7, h8, hs, hv, Value.True, Value.AsString] at h ⊢ <;>
                exact h.symm
          · simp [hkind, hl, h3, h4, h5, h6, h7, h8] at h

theorem resource_qualifies (cf : String) (b : Block) (acc : List String)
    (hkind : b.Type_ = "resource") (hlabels : 2 ≤ b.Labels.length)
    (hq : qualifiesAsResource b = true) :
    resourceStatement cf b acc = .fallthrough (acc ++ [identifier b]) := by
  have hid : identifier b = b.Labels.headD "" ++ "." ++ (b.Labels.drop 1).headD "" := by
    simp [identifier, hkind]
  rw [hid]
  unfold qualifiesAsResource attributeValue at hq
  unfold resourceStatement
  cases hl : b.Labels with
  | nil => simp [hl] at hlabels
  | cons l0 t =>
    cases t with
    | nil => simp [hl] at hlabels
    | cons l1 t2 =>
      cases h5 : List.lookup "archived" b.Body.Attributes with
      | none => simp [h5] at hq
      | some attr =>
        cases h6 : (attr.Expr.Value EvalContext.empty).2.HasErrors
        · simp [hkind, hl, h5, h6] at hq
          simp [hkind, hl, h5, h6, hq, Value.True]
        · simp [h5, h6] at hq

theorem module_qualifies (cf : String) (b : Block) (acc : List String)
    (hlabels : 1 ≤ b.Labels.length) (hq : qualifiesAsModule b = true) :
    moduleStatement cf b acc = .fallthrough (acc ++ [identifier b]) := by
  have hkind : b.Type_ = "module" := by
    simp [qualifiesAsModule] at hq
    exact hq.1.1
  have hid : identifier b = "module." ++ b.Labels.headD "" := by
    simp [identifier, hkind]
  rw [hid]
  unfold qualifiesAsModule attributeValue at hq
  unfold moduleStatement
  cases hl : b.Labels with
  | nil => simp [hl] at hlabels
  | cons l0 t =>
    cases h3 : List.lookup "source" b.Body.Attributes with
    | none => simp [h3] at hq
    | some attr =>
      cases h4 : (attr.Expr.Value EvalContext.empty).2.HasErrors
      swap
      · simp [h3, h4] at hq
      cases h6 : List.lookup "archived" b.Body.Attributes with
      | none => simp [h6] at hq
      | some attr2 =>
        cases h8 : (attr2.Expr.Value EvalContext.empty).2.HasErrors
        swap
        · simp [h6, h8] at hq
        cases hv : (attr.Expr.Value EvalContext.empty).1 with
        | stringVal s =>
          simp [hkind, h3, h4, h6, h8, hv] at hq
          simp [hkind, hl, h3, h4, h6, h8, hv, hq, Value.AsString, Value.True]
        | _ => simp [hkind, h3, h4, h6, h8, hv] at hq

theorem attributeValue_eq_some (b : Block) (n : String) (v : Value) :
    attributeValue b n = some v ↔
      ∃ attr, b.Body.Attributes.lookup n = some attr ∧
        (attr.Expr.Value EvalContext.empty).2.HasErrors = false ∧
        (attr.Expr.Value EvalContext.empty).1 = v := by
  unfold attributeValue
  cases h : List.lookup n b.Body.Attributes with
  | none => simp
  | some attr =>
    cases hd : (attr.Expr.Value EvalContext.empty).2.HasErrors <;> simp [hd]

theorem evaluationFails_eq_true (b : Block) (n : String) :
    evaluationFails b n = true ↔
      ∃ attr, b.Body.Attributes.lookup n = some attr ∧
        (attr.Expr.Value EvalContext.empty).2.HasErrors = true := by
  unfold evaluationFails
  cases h : List.lookup n b.Body.Attributes with
  | none => simp
  | some attr => simp

theorem loopBody_next (cf : String) (b : Block) (acc r : List String)
    (h : loopBody cf b acc = .fallthrough r ∨ loopBody cf b acc = .continue_ r) :
    r = acc ++ (if qualifies b then [identifier b] else []) := by
  by_cases h1 : b.Type_ = "resource"
  · rw [loopBody_of_resource cf b acc h1] at h
    have hq : qualifies b = qualifiesAsResource b := by
      simp [qualifies, qualifiesAsModule, h1]
    rw [hq]
    exact resource_next cf b acc r h1 h
  · rw [loopBody_of_not_resource cf b acc h1] at h
    have hq : qualifies b = qualifiesAsModule b := by
      simp [qualifies, qualifiesAsResource, h1]
    rw [hq]
    by_cases h2 : b.Type_ = "module"
    · exact module_next cf b acc r h2 h
    · simp [moduleStatement, h2] at h
      simp [qualifiesAsModule, h2, h]

theorem processBlocks_ok (cf : String) (bs : List Block) (acc rs : List String)
    (h : processBlocks cf bs acc = .ok rs) :
    rs = acc ++ (bs.filter qualifies).map identifier := by
  induction bs generalizing acc with
  | nil =>
    simp [processBlocks] at h
    simp [h]
  | cons b rest ih =>
    rw [processBlocks_cons] at h
    cases hb : loopBody cf b acc with
    | fallthrough r =>
      rw [hb] at h
      have hr := loopBody_next cf b acc r (Or.inl hb)
      have := ih r h
      rw [this, hr]
      cases hq : qualifies b <;> simp [List.filter, hq]
    | continue_ r =>
      rw [hb] at h
      have hr := loopBody_next cf b acc r (Or.inr hb)
      have := ih r h
      rw [this, hr]
      cases hq : qualifies b <;> simp [List.filter, hq]
    | return_ r e => simp [hb, continueWith] at h
    | panic p => simp [hb, continueWith] at h

theorem resourceStatement_return (cf : String) (b : Block) (acc r : List String)
    (e : ProcessError) (h : resourceStatement cf b acc = .return_ r e) :
    r = acc ∧ e.isEvaluationError = true := by
  unfold resourceStatement at h
  by_cases h1 : b.Type_ = "resource"
  swap
  · simp [h1] at h
  cases h3 : b.Labels[0]? with
  | none => simp [h1, h3] at h
  | some l0 =>
    by_cases h2 : l0 = "github_repository"
    swap
    · simp [h1, h2, h3] at h
    cases h4 : b.Labels[1]? with
    | none => simp [h1, h2, h3, h4] at h
    | some l1 =>
      cases h5 : List.lookup "archived" b.Body.Attributes with
      | none => simp [h1, h2, h3, h4, h5] at h
      | some attr =>
        cases h6 : (attr.Expr.Value EvalContext.empty).2.HasErrors
        · cases h7 : (attr.Expr.Value EvalContext.empty).1.True with
          | error p => simp [h1, h2, h3, h4, h5, h6, h7] at h
          | ok archived => cases archived <;> simp [h1, h2, h3, h4, h5, h6, h7] at h
        · simp [h1, h2, h3, h4, h5, h6] at h
          simp [← h.1, ← h.2, ProcessError.isEvaluationError]

theorem moduleStatement_return (cf : String) (b : Block) (acc r : List String)
    (e : ProcessError) (h : moduleStatement cf b acc = .return_ r e) :
    r = acc ∧ e.isEvaluationError = true := by
  unfold moduleStatement at h
  by_cases h1 : b.Type_ = "module"
  swap
  · simp [h1] at h
  cases h2 : b.Labels[0]? with
  | none => simp [h1, h2] at h
  | some l0 =>
    cases h3 : List.lookup "source" b.Body.Attributes with
    | none => simp [h1, h2, h3] at h
    | some attr =>
      cases h4 : (attr.Expr.Value EvalContext.empty).2.HasErrors
      swap
      · simp [h1, h2, h3, h4] at h
        simp [← h.1, ← h.2, ProcessError.isEvaluationError]
      cases h5 : (attr.Expr.Value EvalContext.empty).1.AsString with
      | error p => simp [h1, h2, h3, h4, h5] at h
      | ok moduleSource =>
        cases h6 : List.lookup "archived" b.Body.Attributes with
        | none => simp [h1, h2, h3, h4, h5, h6] at h
        | some attr2 =>
          cases h7 : stringsContains moduleSource targetTFModuleName
          · simp [h1, h2, h3, h4, h5, h6, h7] at h
          cases h8 : (attr2.Expr.Value EvalContext.empty).2.HasErrors
          · cases h9 : (attr2.Expr.Value EvalContext.empty).1.True with
            | error p => simp [h1, h2, h3, h4, h5, h6, h7, h8, h9] at h
            | ok archived => cases archived <;> simp [h1, h2, h3, h4, h5, h6, h7, h8, h9] at h
          · simp [h1, h2, h3, h4, h5, h6, h7, h8] at h
            simp [← h.1, ← h.2, ProcessError.isEvaluationError]

theorem loopBody_return (cf : String) (b : Block) (acc r : List String)
    (e : ProcessError) (h : loopBody cf b acc = .return_ r e) :
    r = acc ∧ e.isEvaluationError = true := by
  by_cases h1 : b.Type_ = "resource"
  · rw [loopBody_of_resource cf b acc h1] at h
    exact resourceStatement_return cf b acc r e h
  · rw [loopBody_of_not_resource cf b acc h1] at h
    exact moduleStatement_return cf b acc r e h

theorem processBlocks_error (cf : String) (bs : List Block) (acc rs : List String)
    (e : ProcessError) (h : processBlocks cf bs acc = .error rs e) :
    ∃ pre b post, bs = pre ++ b :: post ∧ processBlocks cf pre acc = .ok rs ∧
      loopBody cf b rs = .return_ rs e := by
  induction bs generalizing acc with
  | nil => simp [processBlocks] at h
  | cons b rest ih =>
    rw [processBlocks_cons] at h
    cases hb : loopBody cf b acc with
    | fallthrough r =>
      rw [hb] at h
      obtain ⟨pre, b2, post, h1, h2, h3⟩ := ih r h
      refine ⟨b :: pre, b2, post, by simp [h1], ?_, h3⟩
      rw [processBlocks_cons, hb]
      exact h2
    | continue_ r =>
      rw [hb] at h
      obtain ⟨pre, b2, post, h1, h2, h3⟩ := ih r h
      refine ⟨b :: pre, b2, post, by simp [h1], ?_, h3⟩
      rw [processBlocks_cons, hb]
      exact h2
    | return_ r e2 =>
      rw [hb] at h
      simp [continueWith] at h
      obtain ⟨hr, he⟩ := h
      have hacc := (loopBody_return cf b acc r e2 hb).1
      subst hr he
      subst hacc
      exact ⟨[], b, rest, rfl, by simp [processBlocks], hb⟩
    | panic p => simp [hb, continueWith] at h

theorem loopBody_index (cf : String) (b : Block) (acc : List String)
    (hres : b.Type_ = "resource" → 1 ≤ b.Labels.length)
    (hrepo : b.Type_ = "resource" → b.Labels[0]? = some "github_repository" →
      2 ≤ b.Labels.length)
    (hmod : b.Type_ = "module" → 1 ≤ b.Labels.length) :
    loopBody cf b acc ≠ .panic .indexOutOfRange := by
  by_cases h1 : b.Type_ = "resource"
  · rw [loopBody_of_resource cf b acc h1]
    unfold resourceStatement
    cases hl : b.Labels with
    | nil => simp [hl] at hres; exact absurd h1 hres
    | cons l0 t =>
      by_cases h2 : l0 = "github_repository"
      swap
      · simp [h1, h2]
      cases t with
      | nil => simp [hl, h1, h2] at hrepo
      | cons l1 t2 =>
        cases h5 : List.lookup "archived" b.Body.Attributes with
        | none => simp [h1, h2, h5]
        | some attr =>
          cases h6 : (attr.Expr.Value EvalContext.empty).2.HasErrors
          · cases hv : (attr.Expr.Value EvalContext.empty).1 with
            | boolVal a => cases a <;> simp [h1, h2, h5, h6, hv, Value.True]
            | _ => simp [h1, h2, h5, h6, hv, Value.True]
          · simp [h1, h2, h5, h6]
  · rw [loopBody_of_not_resource cf b acc h1]
    unfold moduleStatement
    by_cases h2 : b.Type_ = "module"
    swap
    · simp [h2]
    cases hl : b.Labels with
    | nil => simp [hl] at hmod; exact absurd h2 hmod
    | cons l0 t =>
      cases h3 : List.lookup "source" b.Body.Attributes with
      | none => simp [h2, h3]
      | some attr =>
        cases h4 : (attr.Expr.Value EvalContext.empty).2.HasErrors
        swap
        · simp [h2, h3, h4]
        cases hv : (attr.Expr.Value EvalContext.empty).1 with
        | stringVal s =>
          cases h6 : List.lookup "archived" b.Body.Attributes with
          | none => simp [h2, h3, h4, hv, h6, Value.AsString]
          | some attr2 =>
            cases h7 : stringsContains s targetTFModuleName
            · simp [h2, h3, h4, hv, h6, h7, Value.AsString]
            cases h8 : (attr2.Expr.Value EvalContext.empty).2.HasErrors
            · cases hv2 : (attr2.Expr.Value EvalContext.empty).1 with
              | boolVal a => cases a <;> simp [h2, h3, h4, hv, h6, h7, h8, hv2, Value.AsString, Value.True]
              | _ => simp [h2, h3, h4, hv, h6, h7, h8, hv2, Value.AsString, Value.True]
            · simp [h2, h3, h4, hv, h6, h7, h8, Value.AsString]
        | _ => simp [h2, h3, h4, hv, Value.AsString]

theorem processBlocks_index (cf : String) (bs : List Block) (acc : List String)
    (hres : ∀ b ∈ bs, b.Type_ = "resource" → 1 ≤ b.Labels.length)
    (hrepo : ∀ b ∈ bs, b.Type_ = "resource" → b.Labels[0]? = some "github_repository" →
      2 ≤ b.Labels.length)
    (hmod : ∀ b ∈ bs, b.Type_ = "module" → 1 ≤ b.Labels.length) :
    processBlocks cf bs acc ≠ .panic .indexOutOfRange := by
  induction bs generalizing acc with
  | nil => simp [processBlocks]
  | cons b rest ih =>
    have hb := loopBody_index cf b acc (hres b (List.mem_cons_self _ _))
      (hrepo b (List.mem_cons_self _ _)) (hmod b (List.mem_cons_self _ _))
    have ih2 := fun a => ih a (fun x hx => hres x (List.mem_cons_of_mem _ hx))
      (fun x hx => hrepo x (List.mem_cons_of_mem _ hx))
      (fun x hx => hmod x (List.mem_cons_of_mem _ hx))
    rw [processBlocks_cons]
    cases h : loopBody cf b acc with
    | fallthrough r => exact ih2 r
    | continue_ r => exact ih2 r
    | return_ r e => simp [continueWith]
    | panic p =>
      rw [h] at hb
      simpa [continueWith] using hb

/-! ## Lemmas on the loops of generateArchivedReposRemoval -/

theorem writeCommands_nil (env : Env) (p : String) (ids : List String) (trace : List FsEvent)
    (h : (writeCommands env p ids trace).status = .nil) :
    (writeCommands env p ids trace).events =
      trace ++ ids.map (fun i => FsEvent.write p (commandLine i)) := by
  induction ids generalizing trace with
  | nil => simp [writeCommands]
  | cons i rest ih =>
    rw [writeCommands] at h ⊢
    cases hw : env.writeFails trace p ("terragrunt state rm " ++ i ++ "\n")
    · simp only [hw, Bool.false_eq_true, if_false] at h ⊢
      rw [ih _ h]
      simp [commandLine]
    · simp [hw] at h

theorem generateBody_error (env : Env) (root out : String) (f : terraformFile)
    (trace : List FsEvent) (rs : List String) (e : ProcessError)
    (h : processTerraformFile env.ParseHCLFile (env.Join [root, f.directoryName, f.fileName]) =
      .error rs e) :
    generateBody env root out f trace =
      ⟨trace, .err (.processing (env.Join [root, f.directoryName, f.fileName]) e)⟩ := by
  simp [generateBody, h]

theorem generateBody_nil (env : Env) (root out : String) (f : terraformFile)
    (trace : List FsEvent) (h : (generateBody env root out f trace).status = .nil) :
    ∃ ids, processTerraformFile env.ParseHCLFile
        (env.Join [root, f.directoryName, f.fileName]) = .ok ids ∧
      (generateBody env root out f trace).events =
        trace ++ expectedScript (scriptPath env out f) ids := by
  have hsp : env.Join [out, f.directoryName ++ "-" ++ stringsTrimSuffix f.fileName ".tf" ++
      ".sh"] = scriptPath env out f := rfl
  cases hp : processTerraformFile env.ParseHCLFile
      (env.Join [root, f.directoryName, f.fileName]) with
  | panic p => simp [generateBody, hp] at h
  | error rs e => simp [generateBody, hp] at h
  | ok ids =>
    refine ⟨ids, rfl, ?_⟩
    cases ids with
    | nil => simp [generateBody, hp, expectedScript]
    | cons i rest =>
      simp only [generateBody, hp, hsp, List.length_cons, Nat.succ_ne_zero, if_false] at h ⊢
      generalize scriptPath env out f = path at h ⊢
      cases hc : env.createFails trace path
      swap
      · simp [hc] at h
      simp only [hc, Bool.false_eq_true, if_false] at h ⊢
      cases hw : (writeCommands env path (i :: rest) (trace ++ [FsEvent.create path])).status with
      | nil =>
        simp only [hw] at h ⊢
        cases hcl : env.closeFails
            (writeCommands env path (i :: rest) (trace ++ [FsEvent.create path])).events path
        · simp only [hcl, Bool.false_eq_true, if_false] at h ⊢
          rw [writeCommands_nil env _ _ _ hw]
          simp [expectedScript]
        · simp [hcl] at h
      | err e => simp [hw] at h
      | panic p => simp [hw] at h

theorem generateLoop_cons (env : Env) (root out : String) (f : terraformFile)
    (rest : List terraformFile) (trace : List FsEvent) :
    generateLoop env root out (f :: rest) trace =
      if (generateBody env root out f trace).status = .nil then
        generateLoop env root out rest (generateBody env root out f trace).events
      else generateBody env root out f trace := by
  rw [generateLoop]
  cases h : (generateBody env root out f trace).status <;> simp [h]

theorem generateLoop_append (env : Env) (root out : String) (xs ys : List terraformFile)
    (trace : List FsEvent) :
    generateLoop env root out (xs ++ ys) trace =
      if (generateLoop env root out xs trace).status = .nil then
        generateLoop env root out ys (generateLoop env root out xs trace).events
      else generateLoop env root out xs trace := by
  induction xs generalizing trace with
  | nil => simp [generateLoop]
  | cons f rest ih =>
    rw [List.cons_append, generateLoop_cons, generateLoop_cons]
    by_cases h : (generateBody env root out f trace).status = .nil
    · simp only [h, if_true]
      exact ih _
    · simp [h]

theorem expectedScripts_cons (env : Env) (root out : String) (f : terraformFile)
    (rest : List terraformFile) (ids : List String)
    (h : processTerraformFile env.ParseHCLFile (env.Join [root, f.directoryName, f.fileName]) =
      .ok ids) :
    expectedScripts env root out (f :: rest) =
      expectedScript (scriptPath env out f) ids ++ expectedScripts env root out rest := by
  simp [expectedScripts, h]

theorem generateLoop_nil (env : Env) (root out : String) (fs : List terraformFile)
    (trace : List FsEvent) (h : (generateLoop env root out fs trace).status = .nil) :
    (generateLoop env root out fs trace).events = trace ++ expectedScripts env root out fs := by
  induction fs generalizing trace with
  | nil => simp [generateLoop, expectedScripts]
  | cons f rest ih =>
    rw [generateLoop_cons] at h ⊢
    by_cases hb : (generateBody env root out f trace).status = .nil
    · simp only [hb, if_true] at h ⊢
      obtain ⟨ids, hids, hev⟩ := generateBody_nil env root out f trace hb
      rw [ih _ h, hev, expectedScripts_cons env root out f rest ids hids]
      simp
    · simp only [hb, if_false] at h

theorem fileContent_writes (p : String) (ids : List String) (c : String) :
    List.foldl
      (fun content event =>
        match event with
        | FsEvent.create q => if q = p then some "" else content
        | FsEvent.write q data => if q = p then content.map (fun c => c ++ data) else content
        | FsEvent.close _ => content)
      (some c) (ids.map (fun i => FsEvent.write p (commandLine i))) =
      some (c ++ scriptContent ids) := by
  induction ids generalizing c with
  | nil => simp [scriptContent]
  | cons i rest ih =>
    simp only [List.map_cons, List.foldl_cons, if_true, Option.map_some']
    rw [ih]
    simp [scriptContent, String.append_assoc]

theorem fileContent_script (p : String) (ids : List String) (trace : List FsEvent) :
    fileContent p (trace ++ ([FsEvent.create p] ++
      ids.map (fun i => FsEvent.write p (commandLine i)) ++ [FsEvent.close p])) =
      some (scriptContent ids) := by
  unfold fileContent
  rw [List.foldl_append, List.foldl_append, List.foldl_append]
  simp only [List.foldl_cons, List.foldl_nil, if_true]
  rw [fileContent_writes]
  simp

theorem writeCommands_events (env : Env) (p : String) (ids : List String)
    (trace : List FsEvent) :
    ∃ later, (writeCommands env p ids trace).events = trace ++ later ∧
      ∀ ev ∈ later, ev.path = p := by
  induction ids generalizing trace with
  | nil => exact ⟨[], by simp [writeCommands], by simp⟩
  | cons i rest ih =>
    rw [writeCommands]
    cases hw : env.writeFails trace p ("terragrunt state rm " ++ i ++ "\n")
    · simp only [Bool.false_eq_true, if_false]
      obtain ⟨later, h1, h2⟩ := ih (trace ++ [.write p ("terragrunt state rm " ++ i ++ "\n")])
      refine ⟨.write p ("terragrunt state rm " ++ i ++ "\n") :: later, by simp [h1], ?_⟩
      intro ev hev
      rcases List.mem_cons.1 hev with h | h
      · rw [h]
        rfl
      · exact h2 ev h
    · exact ⟨[], by simp, by simp⟩

theorem generateBody_events (env : Env) (root out : String) (f : terraformFile)
    (trace : List FsEvent) :
    ∃ later, (generateBody env root out f trace).events = trace ++ later ∧
      ∀ ev ∈ later, ev.path = scriptPath env out f := by
  have hsp : env.Join [out, f.directoryName ++ "-" ++ stringsTrimSuffix f.fileName ".tf" ++
      ".sh"] = scriptPath env out f := rfl
  cases hp : processTerraformFile env.ParseHCLFile
      (env.Join [root, f.directoryName, f.fileName]) with
  | panic p => exact ⟨[], by simp [generateBody, hp], by simp⟩
  | error rs e => exact ⟨[], by simp [generateBody, hp], by simp⟩
  | ok ids =>
    cases ids with
    | nil => exact ⟨[], by simp [generateBody, hp], by simp⟩
    | cons i rest =>
      simp only [generateBody, hp, hsp, List.length_cons, Nat.succ_ne_zero, if_false]
      generalize scriptPath env out f = path
      cases hc : env.createFails trace path
      swap
      · exact ⟨[], by simp, by simp⟩
      simp only [Bool.false_eq_true, if_false]
      obtain ⟨later, h1, h2⟩ :=
        writeCommands_events env path (i :: rest) (trace ++ [FsEvent.create path])
      have hmem : ∀ ev ∈ FsEvent.create path :: later, ev.path = path := by
        intro ev hev
        rcases List.mem_cons.1 hev with h | h
        · rw [h]
          rfl
        · exact h2 ev h
      cases hw : (writeCommands env path (i :: rest) (trace ++ [FsEvent.create path])).status with
      | nil =>
        simp only []
        cases hcl : env.closeFails
            (writeCommands env path (i :: rest) (trace ++ [FsEvent.create path])).events path
        · simp only [Bool.false_eq_true, if_false]
          refine ⟨FsEvent.create path :: later ++ [FsEvent.close path], by simp [h1], ?_⟩
          intro ev hev
          rcases List.mem_append.1 hev with h | h
          · exact hmem ev h
          · simp at h
            rw [h]
            rfl
        · simp only [if_true]
          exact ⟨FsEvent.create path :: later, by simp [h1], hmem⟩
      | err e => exact ⟨FsEvent.create path :: later, by simp [h1], hmem⟩
      | panic p => exact ⟨FsEvent.create path :: later, by simp [h1], hmem⟩

theorem generateLoop_events (env : Env) (root out : String) (fs : List terraformFile)
    (trace : List FsEvent) :
    ∃ later, (generateLoop env root out fs trace).events = trace ++ later ∧
      ∀ ev ∈ later, ∃ g ∈ fs, ev.path = scriptPath env out g := by
  induction fs generalizing trace with
  | nil => exact ⟨[], by simp [generateLoop], by simp⟩
  | cons f rest ih =>
    obtain ⟨l1, h1, h2⟩ := generateBody_events env root out f trace
    rw [generateLoop_cons]
    by_cases hb : (generateBody env root out f trace).status = .nil
    · simp only [hb, if_true]
      obtain ⟨l2, h3, h4⟩ := ih (generateBody env root out f trace).events
      refine ⟨l1 ++ l2, by rw [h3, h1, List.append_assoc], ?_⟩
      intro ev hev
      rcases List.mem_append.1 hev with h | h
      · exact ⟨f, List.mem_cons_self _ _, h2 ev h⟩
      · obtain ⟨g, hg, hp⟩ := h4 ev h
        exact ⟨g, List.mem_cons_of_mem _ hg, hp⟩
    · simp only [hb, if_false]
      exact ⟨l1, h1, fun ev hev => ⟨f, List.mem_cons_self _ _, h2 ev hev⟩⟩

theorem generateLoop_status_append (env : Env) (root out : String)
    (xs ys : List terraformFile) (trace : List FsEvent)
    (h : (generateLoop env root out (xs ++ ys) trace).status = .nil) :
    (generateLoop env root out xs trace).status = .nil := by
  rw [generateLoop_append] at h
  by_cases hx : (generateLoop env root out xs trace).status = .nil
  · exact hx
  · rw [if_neg hx] at h
    exact h

theorem fileContent_append_other (p : String) (trace later : List FsEvent)
    (h : ∀ ev ∈ later, ev.path ≠ p) :
    fileContent p (trace ++ later) = fileContent p trace := by
  unfold fileContent
  rw [List.foldl_append]
  generalize List.foldl _ none trace = st
  induction later generalizing st with
  | nil => rfl
  | cons ev rest ih =>
    have hev := h ev (List.mem_cons_self _ _)
    have hrest := fun e he => h e (List.mem_cons_of_mem _ he)
    rw [List.foldl_cons]
    cases ev with
    | create q =>
      have : q ≠ p := hev
      simp only [this, if_false]
      exact ih hrest st
    | write q data =>
      have : q ≠ p := hev
      simp only [this, if_false]
      exact ih hrest st
    | close q => exact ih hrest st

/-! ## The classifier: claims C1 to C6, C9 and C10 -/

/-- C1. Standalone repository resource: in a parsed document whose other blocks are processed
successfully, a top-level block of kind `resource` with labels `github_repository`, `name`
contributes exactly the one identifier `github_repository.name` when its `archived` attribute
is present and evaluates to true, and nothing when it evaluates to false or is missing; a
missing attribute is a skip, not an error. -/
theorem resource_block_emission (P : String → Option File × Diagnostics) (cf : String)
    (body : Body) (diags : Diagnostics) (pre post : List Block) (b : Block)
    (name : String) (more r1 r2 : List String)
    (hparse : P cf = (some ⟨.nativeBody body⟩, diags)) (hdiags : diags.HasErrors = false)
    (hblocks : body.Blocks = pre ++ b :: post)
    (hkind : b.Type_ = "resource") (hlabels : b.Labels = "github_repository" :: name :: more)
    (hpre : processBlocks cf pre [] = .ok r1) (hpost : processBlocks cf post [] = .ok r2) :
    (attributeValue b "archived" = some (.boolVal true) →
      processTerraformFile P cf = .ok (r1 ++ ["github_repository." ++ name] ++ r2)) ∧
    (attributeValue b "archived" = some (.boolVal false) →
      processTerraformFile P cf = .ok (r1 ++ r2)) ∧
    (b.Body.Attributes.lookup "archived" = none →
      processTerraformFile P cf = .ok (r1 ++ r2)) := by
  rw [processTerraformFile_parsed P cf body diags hparse hdiags, hblocks,
    processBlocks_split cf pre post b r1 hpre, loopBody_of_resource cf b r1 hkind]
  refine ⟨?_, ?_, ?_⟩
  · intro h
    obtain ⟨attr, ha, hd, hv⟩ := (attributeValue_eq_some _ _ _).1 h
    simp [resourceStatement, hkind, hlabels, ha, hd, hv, Value.True, continueWith,
      continueWith_next cf post _ r2 hpost]
  · intro h
    obtain ⟨attr, ha, hd, hv⟩ := (attributeValue_eq_some _ _ _).1 h
    simp [resourceStatement, hkind, hlabels, ha, hd, hv, Value.True, continueWith,
      continueWith_next cf post _ r2 hpost]
  · intro ha
    simp [resourceStatement, hkind, hlabels, ha, continueWith,
      continueWith_next cf post _ r2 hpost]

/-- Witness of C1: scenario A of the specification, between two blocks that emit nothing. -/
theorem resource_block_emission_witness :
    processTerraformFile (parserOf [resourceOld, resourceFoo, moduleBaz]) "main.tf" =
      .ok ([] ++ ["github_repository." ++ "foo"] ++ []) :=
  (resource_block_emission (parserOf [resourceOld, resourceFoo, moduleBaz]) "main.tf"
    (.mk [] [resourceOld, resourceFoo, moduleBaz]) [] [resourceOld] [moduleBaz] resourceFoo
    "foo" [] [] [] rfl rfl rfl rfl rfl (by decide) (by decide)).1 (by decide)

/-- C2. Module: in a parsed document whose other blocks are processed successfully, a top-level
block of kind `module` with first label `name` contributes the identifier `module.name` if and
only if its `source` attribute evaluates to a string containing the marker
`terraform-module-github-repository` and its `archived` attribute evaluates to true; in every
other case it contributes nothing, in particular when `source` is missing, when `source` lacks
the marker, when `archived` is missing and when `archived` is false. -/
theorem module_block_emission (P : String → Option File × Diagnostics) (cf : String)
    (body : Body) (diags : Diagnostics) (pre post : List Block) (b : Block)
    (name : String) (more r1 r2 : List String)
    (hparse : P cf = (some ⟨.nativeBody body⟩, diags)) (hdiags : diags.HasErrors = false)
    (hblocks : body.Blocks = pre ++ b :: post)
    (hkind : b.Type_ = "module") (hlabels : b.Labels = name :: more)
    (hpre : processBlocks cf pre [] = .ok r1) (hpost : processBlocks cf post [] = .ok r2) :
    (processTerraformFile P cf = .ok (r1 ++ ["module." ++ name] ++ r2) ↔
      (∃ s, attributeValue b "source" = some (.stringVal s) ∧
        stringsContains s targetTFModuleName = true) ∧
      attributeValue b "archived" = some (.boolVal true)) ∧
    (¬ ((∃ s, attributeValue b "source" = some (.stringVal s) ∧
          stringsContains s targetTFModuleName = true) ∧
        attributeValue b "archived" = some (.boolVal true)) →
      ∀ rs, processTerraformFile P cf = .ok rs → rs = r1 ++ r2) ∧
    (b.Body.Attributes.lookup "source" = none →
      processTerraformFile P cf = .ok (r1 ++ r2)) ∧
    (∀ s, attributeValue b "source" = some (.stringVal s) →
      stringsContains s targetTFModuleName = false →
      processTerraformFile P cf = .ok (r1 ++ r2)) ∧
    (∀ s, attributeValue b "source" = some (.stringVal s) →
      b.Body.Attributes.lookup "archived" = none →
      processTerraformFile P cf = .ok (r1 ++ r2)) ∧
    (∀ s, attributeValue b "source" = some (.stringVal s) →
      attributeValue b "archived" = some (.boolVal false) →
      processTerraformFile P cf = .ok (r1 ++ r2)) := by
  have hres : b.Type_ ≠ "resource" := by
    rw [hkind]
    decide
  have hq : qualifiesAsModule b = true ↔
      ((∃ s, attributeValue b "source" = some (.stringVal s) ∧
        stringsContains s targetTFModuleName = true) ∧
      attributeValue b "archived" = some (.boolVal true)) := by
    unfold qualifiesAsModule
    cases hs : attributeValue b "source" with
    | none => simp [hkind]
    | some v => cases v <;> simp [hkind]
  have hid : identifier b = "module." ++ name := by
    simp [identifier, hkind, hlabels]
  have hlen : 1 ≤ b.Labels.length := by
    simp [hlabels]
  rw [processTerraformFile_parsed P cf body diags hparse hdiags, hblocks,
    processBlocks_split cf pre post b r1 hpre, loopBody_of_not_resource cf b r1 hres]
  have hnext : ∀ r rs, (moduleStatement cf b r1 = .fallthrough r ∨
      moduleStatement cf b r1 = .continue_ r) →
      (continueWith cf post (moduleStatement cf b r1) = .ok rs ↔
        rs = r1 ++ (if qualifiesAsModule b then [identifier b] else []) ++ r2) := by
    intro r rs h
    have hr := module_next cf b r1 r hkind h
    rcases h with h | h <;>
      · rw [h]
        simp only [continueWith]
        rw [continueWith_next cf post r r2 hpost, hr]
        constructor
        · intro h2
          injection h2 with h2
          exact h2.symm
        · intro h2
          rw [h2]
  refine ⟨?_, ?_, ?_, ?_, ?_, ?_⟩
  · rw [← hq]
    constructor
    · intro h
      cases hm : moduleStatement cf b r1 with
      | fallthrough r =>
        have := (hnext r _ (Or.inl hm)).1 h
        cases hqq : qualifiesAsModule b
        · simp [hqq] at this
        · rfl
      | continue_ r =>
        have := (hnext r _ (Or.inr hm)).1 h
        cases hqq : qualifiesAsModule b
        · simp [hqq] at this
        · rfl
      | return_ r e => simp [hm, continueWith] at h
      | panic p => simp [hm, continueWith] at h
    · intro h
      rw [module_qualifies cf b r1 hlen h, hid]
      simp only [continueWith]
      exact continueWith_next cf post _ r2 hpost
  · intro hn rs h
    have hqf : qualifiesAsModule b = false := by
      cases hqq : qualifiesAsModule b
      · rfl
      · exact absurd (hq.1 hqq) hn
    cases hm : moduleStatement cf b r1 with
    | fallthrough r =>
      have := (hnext r _ (Or.inl hm)).1 h
      simpa [hqf] using this
    | continue_ r =>
      have := (hnext r _ (Or.inr hm)).1 h
      simpa [hqf] using this
    | return_ r e => simp [hm, continueWith] at h
    | panic p => simp [hm, continueWith] at h
  · intro ha
    simp [moduleStatement, hkind, hlabels, ha, continueWith,
      continueWith_next cf post _ r2 hpost]
  · intro s h hc
    obtain ⟨attr, ha, hd, hv⟩ := (attributeValue_eq_some _ _ _).1 h
    cases h6 : List.lookup "archived" b.Body.Attributes <;>
      simp [moduleStatement, hkind, hlabels, ha, hd, hv, hc, h6, Value.AsString, continueWith,
        continueWith_next cf post _ r2 hpost]
  · intro s h h6
    obtain ⟨attr, ha, hd, hv⟩ := (attributeValue_eq_some _ _ _).1 h
    simp [moduleStatement, hkind, hlabels, ha, hd, hv, h6, Value.AsString, continueWith,
      continueWith_next cf post _ r2 hpost]
  · intro s h h2
    obtain ⟨attr, ha, hd, hv⟩ := (attributeValue_eq_some _ _ _).1 h
    obtain ⟨attr2, ha2, hd2, hv2⟩ := (attributeValue_eq_some _ _ _).1 h2
    cases hc : stringsContains s targetTFModuleName <;>
      simp [moduleStatement, hkind, hlabels, ha, hd, hv, hc, ha2, hd2, hv2, Value.AsString,
        Value.True, continueWith, continueWith_next cf post _ r2 hpost]

/-- Witness of C2: scenario B of the specification, after a module with another source
(scenario C), which emits nothing. -/
theorem module_block_emission_witness :
    processTerraformFile (parserOf [moduleBaz, moduleBar]) "main.tf" =
      .ok ([] ++ ["module." ++ "bar"] ++ []) :=
  (module_block_emission (parserOf [moduleBaz, moduleBar]) "main.tf"
    (.mk [] [moduleBaz, moduleBar]) [] [moduleBaz] [] moduleBar
    "bar" [] [] [] rfl rfl rfl rfl rfl (by decide) (by decide)).1.2
    ⟨⟨"git::https://example.com/terraform-module-github-repository//x", by decide, by decide⟩,
      by decide⟩

/-- C3. Document order: when `processTerraformFile` succeeds on a parsed document, the sequence
it returns is the identifiers of the qualifying top-level blocks in document order, one entry
per qualifying block, neither sorted nor deduplicated; and the document made of two block lists
succeeds exactly when both lists do, with the concatenation of their results. -/
theorem results_in_document_order (P : String → Option File × Diagnostics) (cf : String)
    (body : Body) (diags : Diagnostics)
    (hparse : P cf = (some ⟨.nativeBody body⟩, diags)) (hdiags : diags.HasErrors = false) :
    (∀ rs, processTerraformFile P cf = .ok rs →
      rs = (body.Blocks.filter qualifies).map identifier) ∧
    (∀ xs ys rs, body.Blocks = xs ++ ys →
      (processTerraformFile P cf = .ok rs ↔
        ∃ r1 r2, processBlocks cf xs [] = .ok r1 ∧ processBlocks cf ys [] = .ok r2 ∧
          rs = r1 ++ r2)) := by
  rw [processTerraformFile_parsed P cf body diags hparse hdiags]
  refine ⟨?_, ?_⟩
  · intro rs h
    simpa using processBlocks_ok cf body.Blocks [] rs h
  · intro xs ys rs hb
    rw [hb, processBlocks_append]
    cases hx : processBlocks cf xs [] with
    | ok r1 =>
      simp only []
      rw [processBlocks_prepend]
      cases hy : processBlocks cf ys [] with
      | ok r2 =>
        simp only [Outcome.prepend]
        constructor
        · intro h
          injection h with h
          exact ⟨r1, r2, rfl, rfl, h.symm⟩
        · rintro ⟨a, c, ha, hc, h⟩
          injection ha with ha
          injection hc with hc
          rw [h, ha, hc]
      | error r e => simp [Outcome.prepend]
      | panic p => simp [Outcome.prepend]
    | error r e => simp
    | panic p => simp

/-- Witness of C3: two qualifying blocks with the same identifier give two equal entries, ahead
of the module that follows them in the document. -/
theorem results_in_document_order_witness :
    processTerraformFile (parserOf [resourceFoo, moduleBaz, resourceFoo, moduleBar]) "main.tf" =
        .ok ["github_repository.foo", "github_repository.foo", "module.bar"] ∧
      ["github_repository.foo", "github_repository.foo", "module.bar"] =
        ([resourceFoo, moduleBaz, resourceFoo, moduleBar].filter qualifies).map identifier :=
  ⟨by decide,
    (results_in_document_order (parserOf [resourceFoo, moduleBaz, resourceFoo, moduleBar])
      "main.tf" (.mk [] [resourceFoo, moduleBaz, resourceFoo, moduleBar]) [] rfl rfl).1 _
      (by decide)⟩

/-- C4. The code departs from the claim on an `archived` value that is not a boolean.  The
expression `"yes"` evaluates successfully, to a string; the conversion `True` then aborts, and
with it the processing of a file that holds such a `github_repository` resource block or such
a block of the target module: the value is not taken for false and the blocks after it are not
reached.  The sibling failure, an `archived` that does not evaluate, is a returned error. -/
theorem archived_string_aborts :
    attributeValue resourceTxt "archived" = some (.stringVal "yes") ∧
      (Value.stringVal "yes").True = .error .notBool ∧
      processTerraformFile (parserOf [resourceTxt, resourceFoo]) "main.tf" = .panic .notBool ∧
      attributeValue moduleTxt "archived" = some (.stringVal "yes") ∧
      processTerraformFile (parserOf [moduleTxt, moduleBar]) "main.tf" = .panic .notBool ∧
      processTerraformFile (parserOf [resourceRef, resourceFoo]) "main.tf" =
        .error [] (.resourceArchivedFailed "main.tf"
          [⟨DiagnosticSeverity.DiagError, "Variables not allowed"⟩]) :=
  ⟨by decide, rfl, by decide, by decide, by decide, by decide⟩

/-- C5, counterexample. A module block whose source is not the target module and whose
`archived` expression refers to an unresolvable variable: the expression is never evaluated and
`processTerraformFile` succeeds. -/
theorem module_archived_not_evaluated :
    moduleQux.Type_ = "module" ∧ evaluationFails moduleQux "archived" = true ∧
      processTerraformFile (parserOf [moduleQux]) "main.tf" = .ok [] := by
  decide

/-- C5, amended. In a parsed document that contains a `github_repository` resource block, or a
module block whose `source` evaluates to a string containing the marker, whose `archived`
expression cannot be evaluated in the empty context, `processTerraformFile` does not succeed;
when the block has its labels and the blocks before it are processed without an abort, it
returns an evaluation error. -/
theorem archived_failure_propagates (P : String → Option File × Diagnostics) (cf : String)
    (body : Body) (diags : Diagnostics) (pre post : List Block) (b : Block)
    (hparse : P cf = (some ⟨.nativeBody body⟩, diags)) (hdiags : diags.HasErrors = false)
    (hblocks : body.Blocks = pre ++ b :: post)
    (hfail : evaluationFails b "archived" = true)
    (hkind : (b.Type_ = "resource" ∧ b.Labels[0]? = some "github_repository") ∨
      (b.Type_ = "module" ∧ ∃ s, attributeValue b "source" = some (.stringVal s) ∧
        stringsContains s targetTFModuleName = true)) :
    (∀ rs, processTerraformFile P cf ≠ .ok rs) ∧
    ((b.Type_ = "resource" → 2 ≤ b.Labels.length) → (b.Type_ = "module" → 1 ≤ b.Labels.length) →
      (∀ r1, processBlocks cf pre [] = .ok r1 →
        ∃ e, e.isEvaluationError = true ∧ processTerraformFile P cf = .error r1 e) ∧
      ((∀ p, processBlocks cf pre [] ≠ .panic p) →
        ∃ rs e, processTerraformFile P cf = .error rs e)) := by
  obtain ⟨attr, ha, hd⟩ := (evaluationFails_eq_true _ _).1 hfail
  have hflow : ∀ acc, loopBody cf b acc = .panic .indexOutOfRange ∨
      ((b.Type_ = "resource" → 2 ≤ b.Labels.length) → (b.Type_ = "module" → 1 ≤ b.Labels.length) →
        ∃ e, e.isEvaluationError = true ∧ loopBody cf b acc = .return_ acc e) ∧
      (∃ e, loopBody cf b acc = .return_ acc e) := by
    intro acc
    rcases hkind with ⟨hk, hl0⟩ | ⟨hk, s, hs, hc⟩
    · rw [loopBody_of_resource cf b acc hk]
      cases hl : b.Labels with
      | nil => simp [hl] at hl0
      | cons l0 t =>
        simp [hl] at hl0
        cases t with
        | nil =>
          left
          simp [resourceStatement, hk, hl, hl0]
        | cons l1 t2 =>
          right
          simp [resourceStatement, hk, hl, hl0, ha, hd, ProcessError.isEvaluationError]
    · have hres : b.Type_ ≠ "resource" := by
        rw [hk]
        decide
      obtain ⟨attr2, ha2, hd2, hv2⟩ := (attributeValue_eq_some _ _ _).1 hs
      rw [loopBody_of_not_resource cf b acc hres]
      cases hl : b.Labels with
      | nil =>
        left
        simp [moduleStatement, hk, hl]
      | cons l0 t =>
        right
        simp [moduleStatement, hk, hl, ha, hd, ha2, hd2, hv2, hc, Value.AsString,
          ProcessError.isEvaluationError]
  rw [processTerraformFile_parsed P cf body diags hparse hdiags, hblocks]
  refine ⟨?_, ?_⟩
  · intro rs h
    rw [processBlocks_append] at h
    cases hp : processBlocks cf pre [] with
    | ok r1 =>
      rw [hp] at h
      simp only [processBlocks_cons] at h
      rcases hflow r1 with hf | ⟨_, e, hf⟩ <;> simp [hf, continueWith] at h
    | error r e => simp [hp] at h
    | panic p => simp [hp] at h
  · intro hl2 hl1
    have hfirst : ∀ r1, processBlocks cf pre [] = .ok r1 →
        ∃ e, e.isEvaluationError = true ∧
          processBlocks cf (pre ++ b :: post) [] = .error r1 e := by
      intro r1 hp
      rw [processBlocks_split cf pre post b r1 hp]
      rcases hflow r1 with hf | ⟨hf, _⟩
      · exfalso
        have := loopBody_index cf b r1 (fun h => le_trans (by decide) (hl2 h))
          (fun h _ => hl2 h) hl1
        exact this hf
      · obtain ⟨e, he, hf⟩ := hf hl2 hl1
        exact ⟨e, he, by simp [hf, continueWith]⟩
    refine ⟨hfirst, ?_⟩
    intro hnp
    cases hp : processBlocks cf pre [] with
    | ok r1 =>
      obtain ⟨e, _, he⟩ := hfirst r1 hp
      exact ⟨r1, e, he⟩
    | error r e =>
      refine ⟨r, e, ?_⟩
      rw [processBlocks_append, hp]
    | panic p => exact absurd hp (hnp p)

/-- Witness of C5, amended: the unresolvable `archived` of a repository resource fails the
file, after a resource that had qualified. -/
theorem archived_failure_propagates_witness :
    processTerraformFile (parserOf [resourceFoo, resourceRef]) "main.tf" =
        .error ["github_repository.foo"]
          (.resourceArchivedFailed "main.tf"
            [⟨DiagnosticSeverity.DiagError, "Variables not allowed"⟩]) ∧
      processTerraformFile (parserOf [resourceFoo, resourceRef]) "main.tf" ≠
        .ok ["github_repository.foo"] :=
  ⟨by decide,
    (archived_failure_propagates (parserOf [resourceFoo, resourceRef]) "main.tf"
      (.mk [] [resourceFoo, resourceRef]) [] [resourceFoo] [] resourceRef rfl rfl rfl
      (by decide) (Or.inl ⟨rfl, rfl⟩)).1 ["github_repository.foo"]⟩

/-- C6, counterexample. The resource `foo` qualifies, then the `archived` expression of the
next block fails: the sequence returned together with the error holds `github_repository.foo`,
it is not empty. -/
theorem failure_returns_earlier_identifiers :
    processTerraformFile (parserOf [resourceFoo, resourceRef]) "main.tf" =
      .error ["github_repository.foo"]
        (.resourceArchivedFailed "main.tf"
          [⟨DiagnosticSeverity.DiagError, "Variables not allowed"⟩]) := by
  decide

/-- C6, amended. Whenever `processTerraformFile` fails with an expression-evaluation error, no
result of that file reaches the output: the sequence it returns together with the error is the
identifiers of the blocks that qualified before the failing block, and
`generateArchivedReposRemoval` drops it, ending its run with the error and without an event on
the output directory for that file. -/
theorem evaluation_failure_results (env : Env) (root out : String) (f : terraformFile)
    (rest : List terraformFile) (trace : List FsEvent) (rs : List String) (e : ProcessError)
    (hfail : processTerraformFile env.ParseHCLFile
      (env.Join [root, f.directoryName, f.fileName]) = .error rs e)
    (heval : e.isEvaluationError = true) :
    (∃ body diags pre b post,
      env.ParseHCLFile (env.Join [root, f.directoryName, f.fileName]) =
        (some ⟨.nativeBody body⟩, diags) ∧
      body.Blocks = pre ++ b :: post ∧
      processBlocks (env.Join [root, f.directoryName, f.fileName]) pre [] = .ok rs ∧
      rs = (pre.filter qualifies).map identifier ∧
      loopBody (env.Join [root, f.directoryName, f.fileName]) b rs = .return_ rs e) ∧
    generateLoop env root out (f :: rest) trace =
      ⟨trace, .err (.processing (env.Join [root, f.directoryName, f.fileName]) e)⟩ := by
  refine ⟨?_, ?_⟩
  · generalize env.Join [root, f.directoryName, f.fileName] = cf at hfail
    unfold processTerraformFile at hfail
    rcases hp : env.ParseHCLFile cf with ⟨file, diags⟩
    rw [hp] at hfail
    cases file with
    | none =>
      simp at hfail
      rw [← hfail.2] at heval
      simp [ProcessError.isEvaluationError] at heval
    | some file =>
      cases hd : diags.HasErrors
      swap
      · simp [hd] at hfail
        rw [← hfail.2] at heval
        simp [ProcessError.isEvaluationError] at heval
      obtain ⟨fb⟩ := file
      cases fb with
      | otherBody =>
        simp [hd] at hfail
        rw [← hfail.2] at heval
        simp [ProcessError.isEvaluationError] at heval
      | nativeBody body =>
        simp [hd] at hfail
        obtain ⟨pre, b, post, h1, h2, h3⟩ := processBlocks_error cf body.Blocks [] rs e hfail
        refine ⟨body, diags, pre, b, post, rfl, h1, h2, ?_, h3⟩
        simpa using processBlocks_ok cf pre [] rs h2
  · rw [generateLoop_cons, generateBody_error env root out f trace rs e hfail]
    simp

/-- Witness of C6, amended: the file `repos/b/bad.tf` of the example environment. -/
theorem evaluation_failure_results_witness :
    generateLoop exampleEnv "repos" "out" [⟨"bad.tf", "b"⟩, ⟨"main.tf", "a"⟩] [] =
      ⟨[], .err (.processing (exampleEnv.Join ["repos", "b", "bad.tf"])
        (.resourceArchivedFailed "repos/b/bad.tf"
          [⟨DiagnosticSeverity.DiagError, "Variables not allowed"⟩]))⟩ :=
  (evaluation_failure_results exampleEnv "repos" "out" ⟨"bad.tf", "b"⟩ [⟨"main.tf", "a"⟩] []
    ["github_repository.foo"]
    (.resourceArchivedFailed "repos/b/bad.tf"
      [⟨DiagnosticSeverity.DiagError, "Variables not allowed"⟩])
    (by decide) rfl).2

/-- C9. In a parsed document that contains a `module` block whose `source` expression cannot be
evaluated in the empty context, `processTerraformFile` does not succeed, whether or not the
block has an `archived` attribute; when the block has its label and the blocks before it are
processed successfully, the error returned is the one of the evaluation of `source`. -/
theorem module_source_evaluated_eagerly (P : String → Option File × Diagnostics) (cf : String)
    (body : Body) (diags : Diagnostics) (pre post : List Block) (b : Block)
    (hparse : P cf = (some ⟨.nativeBody body⟩, diags)) (hdiags : diags.HasErrors = false)
    (hblocks : body.Blocks = pre ++ b :: post)
    (hkind : b.Type_ = "module") (hfail : evaluationFails b "source" = true) :
    (∀ rs, processTerraformFile P cf ≠ .ok rs) ∧
    (∀ r1 name more, processBlocks cf pre [] = .ok r1 → b.Labels = name :: more →
      ∃ d, d.HasErrors = true ∧
        processTerraformFile P cf = .error r1 (.moduleSourceFailed cf d)) := by
  obtain ⟨attr, ha, hd⟩ := (evaluationFails_eq_true _ _).1 hfail
  have hres : b.Type_ ≠ "resource" := by
    rw [hkind]
    decide
  rw [processTerraformFile_parsed P cf body diags hparse hdiags, hblocks]
  refine ⟨?_, ?_⟩
  · intro rs h
    rw [processBlocks_append] at h
    cases hp : processBlocks cf pre [] with
    | ok r1 =>
      rw [hp] at h
      simp only [processBlocks_cons, loopBody_of_not_resource cf b r1 hres] at h
      cases hl : b.Labels <;>
        simp [moduleStatement, hkind, hl, ha, hd, continueWith] at h
    | error r e => simp [hp] at h
    | panic p => simp [hp] at h
  · intro r1 name more hp hl
    refine ⟨(attr.Expr.Value EvalContext.empty).2, hd, ?_⟩
    rw [processBlocks_split cf pre post b r1 hp, loopBody_of_not_resource cf b r1 hres]
    simp [moduleStatement, hkind, hl, ha, hd, continueWith]

/-- Witness of C9: a module block whose `source` is a variable and that has no `archived`
attribute fails the file, after a resource that had qualified. -/
theorem module_source_evaluated_eagerly_witness :
    moduleDyn.Body.Attributes.lookup "archived" = none ∧
      processTerraformFile (parserOf [resourceFoo, moduleDyn]) "main.tf" =
        .error ["github_repository.foo"]
          (.moduleSourceFailed "main.tf"
            [⟨DiagnosticSeverity.DiagError, "Variables not allowed"⟩]) ∧
      processTerraformFile (parserOf [resourceFoo, moduleDyn]) "main.tf" ≠
        .ok ["github_repository.foo"] :=
  ⟨rfl, by decide,
    (module_source_evaluated_eagerly (parserOf [resourceFoo, moduleDyn]) "main.tf"
      (.mk [] [resourceFoo, moduleDyn]) [] [resourceFoo] [] moduleDyn rfl rfl rfl rfl
      (by decide)).1 ["github_repository.foo"]⟩

/-- C10. In a parsed document in which every `resource` block has at least one label, every
`resource` block whose first label is `github_repository` has at least two, and every `module`
block has at least one, `processTerraformFile` never aborts on a label index out of range; and
an iteration on a block of any other kind leaves the results as they are whatever its labels,
which it does not read. -/
theorem label_accesses_in_range (P : String → Option File × Diagnostics) (cf : String)
    (body : Body) (diags : Diagnostics)
    (hparse : P cf = (some ⟨.nativeBody body⟩, diags)) (hdiags : diags.HasErrors = false)
    (hres : ∀ b ∈ body.Blocks, b.Type_ = "resource" → 1 ≤ b.Labels.length)
    (hrepo : ∀ b ∈ body.Blocks, b.Type_ = "resource" →
      b.Labels[0]? = some "github_repository" → 2 ≤ b.Labels.length)
    (hmod : ∀ b ∈ body.Blocks, b.Type_ = "module" → 1 ≤ b.Labels.length) :
    processTerraformFile P cf ≠ .panic .indexOutOfRange ∧
    (∀ kind labels inner acc, kind ≠ "resource" → kind ≠ "module" →
      loopBody cf (.mk kind labels inner) acc = .fallthrough acc) := by
  rw [processTerraformFile_parsed P cf body diags hparse hdiags]
  refine ⟨processBlocks_index cf body.Blocks [] hres hrepo hmod, ?_⟩
  intro kind labels inner acc h1 h2
  exact loopBody_other cf (.mk kind labels inner) acc h1 h2

/-- Witness of C10: a document with a `locals` block without labels between labelled resource
and module blocks is processed to its end. -/
theorem label_accesses_in_range_witness :
    processTerraformFile (parserOf [resourceFoo, localsBlock, moduleBar]) "main.tf" ≠
      .panic .indexOutOfRange :=
  (label_accesses_in_range (parserOf [resourceFoo, localsBlock, moduleBar]) "main.tf"
    (.mk [] [resourceFoo, localsBlock, moduleBar]) [] rfl rfl
    (by decide) (by decide) (by decide)).1

/-! ## The script writer: claims C7 and C8 -/

/-- C7. For an input file whose processing yields the identifier sequence `ids`, in a run of
`generateArchivedReposRemoval` that gets through this file: if `ids` is empty the run has no
more events than it had before the file, so no script is created for it; otherwise the file
adds exactly one creation of the script `<directory>-<fileName without its .tf suffix>.sh` of
the output directory, then one write of `terragrunt state rm <identifier>` and a newline per
identifier, in the order of `ids`, then the close, and the content of the script in the run is
the concatenation of these lines.  The events of the earlier files are their scripts, the
files that follow only add events after these, and the content stays as it is to the end of
the run when no later file has the same script name. -/
theorem script_written_per_file (env : Env) (root out : String) (pre post : List terraformFile)
    (f : terraformFile) (ids : List String)
    (hids : processTerraformFile env.ParseHCLFile
      (env.Join [root, f.directoryName, f.fileName]) = .ok ids)
    (hrun : (generateArchivedReposRemoval env root out (pre ++ [f])).status = .nil) :
    (ids = [] →
      (generateArchivedReposRemoval env root out (pre ++ [f])).events =
        (generateArchivedReposRemoval env root out pre).events) ∧
    (ids ≠ [] →
      (generateArchivedReposRemoval env root out (pre ++ [f])).events =
        (generateArchivedReposRemoval env root out pre).events ++
          ([FsEvent.create (env.Join [out, f.directoryName ++ "-" ++
              stringsTrimSuffix f.fileName ".tf" ++ ".sh"])] ++
            ids.map (fun i => FsEvent.write (env.Join [out, f.directoryName ++ "-" ++
              stringsTrimSuffix f.fileName ".tf" ++ ".sh"])
              ("terragrunt state rm " ++ i ++ "\n")) ++
            [FsEvent.close (env.Join [out, f.directoryName ++ "-" ++
              stringsTrimSuffix f.fileName ".tf" ++ ".sh"])]) ∧
      fileContent (env.Join [out, f.directoryName ++ "-" ++
          stringsTrimSuffix f.fileName ".tf" ++ ".sh"])
        (generateArchivedReposRemoval env root out (pre ++ [f])).events =
        some (scriptContent ids)) ∧
    (generateArchivedReposRemoval env root out pre).events = expectedScripts env root out pre ∧
    (∃ later, (generateArchivedReposRemoval env root out (pre ++ f :: post)).events =
      (generateArchivedReposRemoval env root out (pre ++ [f])).events ++ later) ∧
    (ids ≠ [] → (∀ g ∈ post, scriptPath env out g ≠ scriptPath env out f) →
      fileContent (env.Join [out, f.directoryName ++ "-" ++
          stringsTrimSuffix f.fileName ".tf" ++ ".sh"])
        (generateArchivedReposRemoval env root out (pre ++ f :: post)).events =
        some (scriptContent ids)) := by
  have hsp : env.Join [out, f.directoryName ++ "-" ++ stringsTrimSuffix f.fileName ".tf" ++
      ".sh"] = scriptPath env out f := rfl
  have hline : (fun i => FsEvent.write (scriptPath env out f)
      ("terragrunt state rm " ++ i ++ "\n")) =
      (fun i => FsEvent.write (scriptPath env out f) (commandLine i)) := rfl
  rw [hsp, hline]
  unfold generateArchivedReposRemoval at hrun ⊢
  have hpre := generateLoop_status_append env root out pre [f] [] hrun
  have hevpre := generateLoop_nil env root out pre [] hpre
  have hev := generateLoop_nil env root out (pre ++ [f]) [] hrun
  have hscripts : expectedScripts env root out (pre ++ [f]) =
      expectedScripts env root out pre ++ expectedScript (scriptPath env out f) ids := by
    simp [expectedScripts, hids]
  have hsplit : generateLoop env root out (pre ++ f :: post) [] =
      generateLoop env root out post (generateLoop env root out (pre ++ [f]) []).events := by
    have : pre ++ f :: post = (pre ++ [f]) ++ post := by simp
    rw [this, generateLoop_append, if_pos hrun]
  obtain ⟨later, hlater, hpaths⟩ := generateLoop_events env root out post
    (generateLoop env root out (pre ++ [f]) []).events
  have hcontent : ids ≠ [] →
      fileContent (scriptPath env out f) (generateLoop env root out (pre ++ [f]) []).events =
        some (scriptContent ids) := by
    intro h
    rw [hev, hscripts]
    simp only [expectedScript, h, if_false, List.nil_append]
    exact fileContent_script _ _ _
  simp only [List.nil_append] at hevpre hev
  refine ⟨?_, ?_, hevpre, ⟨later, by rw [hsplit, hlater]⟩, ?_⟩
  · intro h
    rw [hev, hscripts, hevpre]
    simp [expectedScript, h]
  · intro h
    refine ⟨?_, hcontent h⟩
    rw [hev, hscripts, hevpre]
    simp [expectedScript, h]
  · intro h hother
    rw [hsplit, hlater, fileContent_append_other _ _ _ ?_]
    · exact hcontent h
    · intro ev hev2
      obtain ⟨g, hg, hp⟩ := hpaths ev hev2
      rw [hp]
      exact hother g hg

/-- Witness of C7: in the example environment the run over `repos/a/empty.tf`, which yields no
identifier, and `repos/a/main.tf`, which yields two, has the four events of the script
`out/a-main.sh` and nothing else, and the script holds the two lines. -/
theorem script_written_per_file_witness :
    (generateArchivedReposRemoval exampleEnv "repos" "out"
        [⟨"empty.tf", "a"⟩, ⟨"main.tf", "a"⟩]).events =
      [.create "out/a-main.sh",
        .write "out/a-main.sh" "terragrunt state rm github_repository.foo\n",
        .write "out/a-main.sh" "terragrunt state rm module.bar\n",
        .close "out/a-main.sh"] ∧
    fileContent "out/a-main.sh"
        (generateArchivedReposRemoval exampleEnv "repos" "out"
          [⟨"empty.tf", "a"⟩, ⟨"main.tf", "a"⟩, ⟨"bad.tf", "b"⟩]).events =
      some "terragrunt state rm github_repository.foo\nterragrunt state rm module.bar\n" :=
  ⟨(((script_written_per_file exampleEnv "repos" "out" [⟨"empty.tf", "a"⟩] [⟨"bad.tf", "b"⟩]
      ⟨"main.tf", "a"⟩ ["github_repository.foo", "module.bar"] (by decide) (by decide)).2.1
      (by decide)).1).trans (by decide),
    ((script_written_per_file exampleEnv "repos" "out" [⟨"empty.tf", "a"⟩] [⟨"bad.tf", "b"⟩]
      ⟨"main.tf", "a"⟩ ["github_repository.foo", "module.bar"] (by decide) (by decide)).2.2.2.2
      (by decide) (by decide)).trans (by decide)⟩

/-- C8. When the files before position `k` are processed without failure and the processing of
the file at position `k` fails, `generateArchivedReposRemoval` returns the error of that file
and stops: the events of the run are the scripts of the files before `k`, those with a
non-empty identifier sequence, and nothing for the failing file or the files after it. -/
theorem first_failure_halts_run (env : Env) (root out : String) (pre post : List terraformFile)
    (f : terraformFile) (rs : List String) (e : ProcessError)
    (hpre : (generateArchivedReposRemoval env root out pre).status = .nil)
    (hfail : processTerraformFile env.ParseHCLFile
      (env.Join [root, f.directoryName, f.fileName]) = .error rs e) :
    generateArchivedReposRemoval env root out (pre ++ f :: post) =
      ⟨expectedScripts env root out pre,
        .err (.processing (env.Join [root, f.directoryName, f.fileName]) e)⟩ := by
  unfold generateArchivedReposRemoval at hpre ⊢
  have hev := generateLoop_nil env root out pre [] hpre
  rw [generateLoop_append, if_pos hpre, hev, generateLoop_cons,
    generateBody_error env root out f _ rs e hfail]
  simp

/-- Witness of C8: in the example environment the third file fails; the run ends with its
error, holds the script of the first file only, and the fourth file is not reached. -/
theorem first_failure_halts_run_witness :
    generateArchivedReposRemoval exampleEnv "repos" "out"
        [⟨"main.tf", "a"⟩, ⟨"empty.tf", "a"⟩, ⟨"bad.tf", "b"⟩, ⟨"main.tf", "a"⟩] =
      ⟨[.create "out/a-main.sh",
          .write "out/a-main.sh" "terragrunt state rm github_repository.foo\n",
          .write "out/a-main.sh" "terragrunt state rm module.bar\n",
          .close "out/a-main.sh"],
        .err (.processing "repos/b/bad.tf" (.resourceArchivedFailed "repos/b/bad.tf"
          [⟨DiagnosticSeverity.DiagError, "Variables not allowed"⟩]))⟩ :=
  (first_failure_halts_run exampleEnv "repos" "out" [⟨"main.tf", "a"⟩, ⟨"empty.tf", "a"⟩]
    [⟨"main.tf", "a"⟩] ⟨"bad.tf", "b"⟩ ["github_repository.foo"]
    (.resourceArchivedFailed "repos/b/bad.tf"
      [⟨DiagnosticSeverity.DiagError, "Variables not allowed"⟩])
    (by decide) (by decide)).trans (by decide)

end ParseArchived
